import Mathlib

/-!
Verification of the NetBpfLoad eBPF object loader (NetBpfLoad.cpp).

We give a shallow embedding of the loader's per-object pipeline:
the compatibility gate, pin-path composition, map creation/reuse with
shape validation, the SELinux pin+rename protocol, program loading, and
the map-fd relocation engine.  Kernel and filesystem interactions are
modelled by an oracle (`World`) of pure functions: each syscall's outcome
is read off from the oracle, and every syscall attempt is recorded in a
trace of `FsAction`s.  Machine integers are modelled as `Nat`/`Int`
(all the C quantities involved are non-negative unsigned values, or
plain int file descriptors / negated errnos).
-/

namespace NetBpfLoad

/-- The `domain` enum of NetBpfLoad.cpp: all selinux_context / pin_subdir
values the loader knows about. -/
inductive domain : Type
  | unspecified
  | tethering
  | net_private
  | net_shared
  | netd_readonly
  | netd_shared
  | loader
deriving DecidableEq, Repr

/-- `specified(d)` from the source: any domain other than `unspecified`. -/
def specified (d : domain) : Bool := d ≠ domain.unspecified

/-- `lookupSelinuxContext` from the source. -/
def lookupSelinuxContext : domain → String
  | .unspecified => ""
  | .tethering => "fs_bpf_tethering"
  | .net_private => "fs_bpf_net_private"
  | .net_shared => "fs_bpf_net_shared"
  | .netd_readonly => "fs_bpf_netd_readonly"
  | .netd_shared => "fs_bpf_netd_shared"
  | .loader => "fs_bpf_loader"

/-- `lookupPinSubdir(d, unspecified)` from the source; the second argument is
the fallback returned for `domain::unspecified`. -/
def lookupPinSubdir (d : domain) (dflt : String) : String :=
  match d with
  | .unspecified => dflt
  | .tethering => "tethering/"
  | .net_private => "net_private/"
  | .net_shared => "net_shared/"
  | .netd_readonly => "netd_readonly/"
  | .netd_shared => "netd_shared/"
  | .loader => "loader/"

/-! ### String helpers

`takeBeforeLast c s` models C++ `s.substr(0, s.find_last_of(c))`:
everything strictly before the last occurrence of `c`, or all of `s`
when `c` does not occur (`find_last_of` returns `npos` and
`substr(0, npos)` is the whole string). -/

/-- Prefix of the list before the last occurrence of `c`; `none` if `c`
does not occur. -/
def takeBeforeLastAux (c : Char) : List Char → Option (List Char)
  | [] => none
  | x :: xs =>
    match takeBeforeLastAux c xs with
    | some r => some (x :: r)
    | none => if x = c then some [] else none

/-- `s.substr(0, s.find_last_of(c))`. -/
def takeBeforeLast (c : Char) (s : String) : String :=
  match takeBeforeLastAux c s.data with
  | some r => ⟨r⟩
  | none => s

/-- The segment after the last occurrence of `c` (the whole string when
`c` does not occur): this is `Split(path, "/").back()` for `c = '/'`. -/
def afterLastAux (c : Char) : List Char → List Char → List Char
  | cur, [] => cur
  | cur, x :: xs =>
    if x = c then afterLastAux c [] xs else afterLastAux c (cur ++ [x]) xs

def afterLast (c : Char) (s : String) : String := ⟨afterLastAux c [] s.data⟩

/-- `pathToObjName` from the source: filename after the final slash, with
everything from the final period onwards stripped, then any trailing
`@...` suffix stripped. -/
def pathToObjName (path : String) : String :=
  let filename := afterLast '/' path
  let name := takeBeforeLast '.' filename
  takeBeforeLast '@' name

/-- Convert all slashes to underscores (readCodeSections does this to
program section names). -/
def slashToUnderscore (s : String) : String :=
  ⟨s.data.map (fun ch => if ch = '/' then '_' else ch)⟩

/-! ### Numeric constants (from linux/bpf.h and errno.h) -/

def BPF_MAP_TYPE_HASH : Nat := 1
def BPF_MAP_TYPE_ARRAY : Nat := 2
def BPF_MAP_TYPE_LPM_TRIE : Nat := 11
def BPF_MAP_TYPE_DEVMAP : Nat := 14
def BPF_MAP_TYPE_DEVMAP_HASH : Nat := 25
def BPF_MAP_TYPE_RINGBUF : Nat := 27

def BPF_F_NO_PREALLOC : Nat := 1
def BPF_F_RDONLY_PROG : Nat := 128

def ENOENT : Nat := 2
def EINVAL : Nat := 22
def ENOTUNIQ : Nat := 76

/-- `KVER(a, b, c) = (a << 16) | (b << 8) | c` packing of kernel versions. -/
def KVER (a b c : Nat) : Nat := 65536 * a + 256 * b + c

/-! ### The map-create request (the fields of `bpf_attr` that
`createMaps` fills in for `BPF_MAP_CREATE`). -/

structure MapCreateReq where
  map_type : Nat
  key_size : Nat
  value_size : Nat
  max_entries : Nat
  map_flags : Nat
  map_name : String
deriving DecidableEq, Repr

/-! ### The environment / kernel / filesystem oracle

All data the loader obtains from outside (build properties, kernel
version, syscall outcomes) is packaged as pure functions.  Fallible
syscalls return `Except Nat α`: `.error e` is failure with errno `e`,
mirroring the C convention of a -1 return with errno set. -/

structure World where
  /-- packed kernel version, as returned by `kernelVersion()`. -/
  kvers : Nat
  /-- `ro.build.type` property. -/
  buildType : String
  isArm : Bool
  isX86 : Bool
  isRiscV : Bool
  isKernel64Bit : Bool
  /-- `getpagesize()` -/
  pageSize : Nat
  /-- `access(path, F_OK) == 0` -/
  pathExists : String → Bool
  /-- `mapRetrieveRO(path)` -/
  retrieveRO : String → Except Nat Nat
  /-- `bpf(BPF_MAP_CREATE, req)` -/
  mapCreate : MapCreateReq → Except Nat Nat
  /-- `bpfGetFdMapType(fd)` (and friends): shape of the kernel map behind fd. -/
  fdMapType : Nat → Int
  fdKeySize : Nat → Int
  fdValueSize : Nat → Int
  fdMaxEntries : Nat → Int
  fdMapFlags : Nat → Int
  /-- `bpfFdPin(fd, path)` -/
  fdPin : Nat → String → Except Nat Unit
  /-- `renameat2(AT_FDCWD, from, AT_FDCWD, to, RENAME_NOREPLACE)` -/
  rename2NoReplace : String → String → Except Nat Unit
  /-- `chmod(path, mode)` -/
  chmodP : String → Nat → Except Nat Unit
  /-- `chown(path, uid, gid)` -/
  chownP : String → Nat → Nat → Except Nat Unit
  /-- `retrieveProgram(path)` -/
  retrieveProgram : String → Except Nat Nat
  /-- `bpf(BPF_PROG_LOAD, req)`, keyed by the code section's name. -/
  progLoad : String → Except Nat Nat

def isEng (w : World) : Bool := w.buildType == "eng"
def isUser (w : World) : Bool := w.buildType == "user"
def isUserdebug (w : World) : Bool := w.buildType == "userdebug"

def isAtLeastKernelVersion (w : World) (a b c : Nat) : Bool :=
  decide (KVER a b c ≤ w.kvers)

/-! ### Map and program definitions (bpf_map_def.h structs, with the two
fixed-width domain strings already decoded — `getDomainFrom*` aborts the
loader on any unrecognized value, so every definition that is processed
carries a valid `domain`). -/

structure MapDef where
  type : Nat
  key_size : Nat
  value_size : Nat
  max_entries : Nat
  map_flags : Nat
  zero : Nat
  uid : Nat
  gid : Nat
  mode : Nat
  bpfloader_min_ver : Nat
  bpfloader_max_ver : Nat
  min_kver : Nat
  max_kver : Nat
  ignore_on_eng : Bool
  ignore_on_user : Bool
  ignore_on_userdebug : Bool
  ignore_on_arm32 : Bool
  ignore_on_aarch64 : Bool
  ignore_on_x86_32 : Bool
  ignore_on_x86_64 : Bool
  ignore_on_riscv64 : Bool
  shared : Bool
  selinux_context : domain
  pin_subdir : domain
deriving DecidableEq, Repr

structure ProgDef where
  uid : Nat
  gid : Nat
  min_kver : Nat
  max_kver : Nat
  optional : Bool
  bpfloader_min_ver : Nat
  bpfloader_max_ver : Nat
  ignore_on_eng : Bool
  ignore_on_user : Bool
  ignore_on_userdebug : Bool
  ignore_on_arm32 : Bool
  ignore_on_aarch64 : Bool
  ignore_on_x86_32 : Bool
  ignore_on_x86_64 : Bool
  ignore_on_riscv64 : Bool
  selinux_context : domain
  pin_subdir : domain
deriving DecidableEq, Repr

/-! ### The compatibility gate -/

/-- The build-type ignore test, exactly as written in the source:
`(ignore_on_eng && isEng()) || (ignore_on_user && isUser()) ||
(ignore_on_userdebug && isUserdebug())`. -/
def buildIgnored (w : World) (iEng iUser iUserdebug : Bool) : Bool :=
  (iEng && isEng w) || (iUser && isUser w) || (iUserdebug && isUserdebug w)

/-- The architecture ignore test, exactly as written in the source. -/
def archIgnored (w : World) (a32 a64 x32 x64 r64 : Bool) : Bool :=
  (w.isArm && !w.isKernel64Bit && a32) || (w.isArm && w.isKernel64Bit && a64) ||
  (w.isX86 && !w.isKernel64Bit && x32) || (w.isX86 && w.isKernel64Bit && x64) ||
  (w.isRiscV && r64)

/-- The disjunction of the map skip conditions of `createMaps`, in source
order: bpfloader version below min / at-or-above max, kernel version below
min / at-or-above max, build-type ignores, architecture ignores. -/
def mapSkipped (w : World) (ldver : Nat) (md : MapDef) : Bool :=
  decide (ldver < md.bpfloader_min_ver) ||
  decide (md.bpfloader_max_ver ≤ ldver) ||
  decide (w.kvers < md.min_kver) ||
  decide (md.max_kver ≤ w.kvers) ||
  buildIgnored w md.ignore_on_eng md.ignore_on_user md.ignore_on_userdebug ||
  archIgnored w md.ignore_on_arm32 md.ignore_on_aarch64 md.ignore_on_x86_32
    md.ignore_on_x86_64 md.ignore_on_riscv64

/-- The disjunction of the program skip conditions of `loadCodeSections`,
in source order: kernel version range, bpfloader version range, build-type
ignores, architecture ignores. -/
def progSkipped (w : World) (ldver : Nat) (pd : ProgDef) : Bool :=
  decide (w.kvers < pd.min_kver) ||
  decide (pd.max_kver ≤ w.kvers) ||
  decide (ldver < pd.bpfloader_min_ver) ||
  decide (pd.bpfloader_max_ver ≤ ldver) ||
  buildIgnored w pd.ignore_on_eng pd.ignore_on_user pd.ignore_on_userdebug ||
  archIgnored w pd.ignore_on_arm32 pd.ignore_on_aarch64 pd.ignore_on_x86_32
    pd.ignore_on_x86_64 pd.ignore_on_riscv64

/-! ### Filesystem / syscall action traces

Every syscall attempt `createMaps` / `loadCodeSections` performs is
recorded as an `FsAction`, in chronological order. -/

inductive FsAction : Type
  | mapCreate (req : MapCreateReq)
  | pin (fd : Nat) (path : String)
  | rename (fromPath toPath : String) (noreplace : Bool)
  | chmod (path : String) (mode : Nat)
  | chown (path : String) (uid gid : Nat)
  | progLoad (name : String)
deriving DecidableEq, Repr

/-- Result of a pipeline stage: a negated-errno style return code, or a
process abort (the source's `abort()` on corrupt definitions). -/
inductive Err : Type
  | aborted
  | code (e : Int)
deriving DecidableEq, Repr

/-! ### The map manager (`createMaps`) -/

/-- The legacy map type substitution of `createMaps`:
`DEVMAP → ARRAY` below kernel 4.14, `DEVMAP_HASH → HASH` below 5.4. -/
def substMapType (w : World) (t : Nat) : Nat :=
  if t == BPF_MAP_TYPE_DEVMAP && !isAtLeastKernelVersion w 4 14 0 then
    BPF_MAP_TYPE_ARRAY
  else if t == BPF_MAP_TYPE_DEVMAP_HASH && !isAtLeastKernelVersion w 5 4 0 then
    BPF_MAP_TYPE_HASH
  else t

/-- `max_entries`, rounded up to the page size for ring buffers (both in
`createMaps` and in `mapMatchesExpectations`). -/
def effectiveMaxEntries (w : World) (t maxE : Nat) : Nat :=
  if t == BPF_MAP_TYPE_RINGBUF && maxE < w.pageSize then w.pageSize else maxE

/-- The `desired_map_flags` computed by `mapMatchesExpectations`: declared
flags, plus `BPF_F_RDONLY_PROG` for DEVMAP/DEVMAP_HASH (the kernel sets
this flag itself in `dev_map_init_map()`), plus `BPF_F_NO_PREALLOC` for
LPM_TRIE. -/
def desiredMapFlags (md : MapDef) (t : Nat) : Nat :=
  let f1 := if t == BPF_MAP_TYPE_DEVMAP || t == BPF_MAP_TYPE_DEVMAP_HASH then
    Nat.lor md.map_flags BPF_F_RDONLY_PROG else md.map_flags
  if t == BPF_MAP_TYPE_LPM_TRIE then Nat.lor f1 BPF_F_NO_PREALLOC else f1

/-- `mapMatchesExpectations`: trivially true below kernel 4.14, otherwise
compares the kernel map's type/key/value/entries/flags against the declared
(post-substitution, post-adjustment) values. -/
def mapMatchesExpectations (w : World) (fd : Nat) (md : MapDef) (t : Nat) : Bool :=
  if !isAtLeastKernelVersion w 4 14 0 then true
  else
    (w.fdMapType fd == (t : Int)) &&
    (w.fdKeySize fd == (md.key_size : Int)) &&
    (w.fdValueSize fd == (md.value_size : Int)) &&
    (w.fdMaxEntries fd == (effectiveMaxEntries w t md.max_entries : Int)) &&
    (w.fdMapFlags fd == (desiredMapFlags md t : Int))

/-- The final pin location of a map:
`/sys/fs/bpf/<pin_subdir|prefix>map_<objName>_<mapName>`, with empty
`<objName>` for shared maps. -/
def mapPinLoc (pfx objName : String) (md : MapDef) (name : String) : String :=
  "/sys/fs/bpf/" ++ lookupPinSubdir md.pin_subdir pfx ++ "map_" ++
    (if md.shared then "" else objName) ++ "_" ++ name

/-- The temporary pin location used when a SELinux context is specified:
`/sys/fs/bpf/<subdir(selinux_context)>tmp_map_<objName>_<mapName>`. -/
def mapTmpPinLoc (objName : String) (md : MapDef) (name : String) : String :=
  "/sys/fs/bpf/" ++ lookupPinSubdir md.selinux_context "" ++ "tmp_map_" ++
    objName ++ "_" ++ name

/-- The `bpf_attr` fields `createMaps` passes to `BPF_MAP_CREATE`.
(`map_name` is only set on kernel 4.15+; the 15-byte truncation performed
by `strlcpy` is not modelled.) -/
def mapCreateRequest (w : World) (name : String) (md : MapDef) (t maxE : Nat) :
    MapCreateReq :=
  { map_type := t, key_size := md.key_size, value_size := md.value_size,
    max_entries := maxE,
    map_flags := Nat.lor md.map_flags
      (if t == BPF_MAP_TYPE_LPM_TRIE then BPF_F_NO_PREALLOC else 0),
    map_name := if isAtLeastKernelVersion w 4 15 0 then name else "" }

/-- The trailing `chmod` + `chown` steps of the non-reuse branch of
`createMaps`. -/
def finishChmodChown (w : World) (md : MapDef) (pinLoc : String)
    (acts : List FsAction) : Except Err Unit × List FsAction :=
  match w.chmodP pinLoc md.mode with
  | .error e => (.error (.code (-(e : Int))), acts ++ [.chmod pinLoc md.mode])
  | .ok _ =>
    match w.chownP pinLoc md.uid md.gid with
    | .error e => (.error (.code (-(e : Int))),
        acts ++ [.chmod pinLoc md.mode, .chown pinLoc md.uid md.gid])
    | .ok _ => (.ok (),
        acts ++ [.chmod pinLoc md.mode, .chown pinLoc md.uid md.gid])

/-- The pinning protocol of the non-reuse branch of `createMaps`: with a
specified SELinux context, pin at the temporary path then `renameat2` with
`RENAME_NOREPLACE` to the final path; otherwise pin directly at the final
path.  Then `chmod`/`chown` the final path. -/
def pinMapSteps (w : World) (objName : String) (md : MapDef) (name : String)
    (fd : Nat) (pinLoc : String) : Except Err Unit × List FsAction :=
  if specified md.selinux_context then
    let createLoc := mapTmpPinLoc objName md name
    match w.fdPin fd createLoc with
    | .error e => (.error (.code (-(e : Int))), [.pin fd createLoc])
    | .ok _ =>
      match w.rename2NoReplace createLoc pinLoc with
      | .error e => (.error (.code (-(e : Int))),
          [.pin fd createLoc, .rename createLoc pinLoc true])
      | .ok _ => finishChmodChown w md pinLoc
          [.pin fd createLoc, .rename createLoc pinLoc true]
  else
    match w.fdPin fd pinLoc with
    | .error e => (.error (.code (-(e : Int))), [.pin fd pinLoc])
    | .ok _ => finishChmodChown w md pinLoc [.pin fd pinLoc]

/-- fd acquisition in `createMaps`: when the pin path already exists the
map is reused via `mapRetrieveRO`, otherwise it is created via
`BPF_MAP_CREATE`. -/
def acquireMapFd (w : World) (name : String) (md : MapDef) (t maxE : Nat)
    (pinLoc : String) : Except Nat Nat × List FsAction :=
  if w.pathExists pinLoc then (w.retrieveRO pinLoc, [])
  else
    let req := mapCreateRequest w name md t maxE
    (w.mapCreate req, [.mapCreate req])

/-- One iteration of the `createMaps` loop, for the map named `name` with
definition `md`.  Result: `.ok none` for a skipped map (empty fd slot),
`.ok (some fd)` for a reused or created map, `.error` for the early
returns of the source (negated errno, `-ENOTUNIQ` on shape mismatch,
abort on a corrupt `zero` field).  The `bpfGetFdMapId` call at the end of
the loop body is log-only and therefore not modelled. -/
def processMap (w : World) (ldver : Nat) (pfx objName : String)
    (name : String) (md : MapDef) : Except Err (Option Nat) × List FsAction :=
  if md.zero ≠ 0 then (.error .aborted, [])
  else if mapSkipped w ldver md then (.ok none, [])
  else
    let t := substMapType w md.type
    let maxE := effectiveMaxEntries w t md.max_entries
    let pinLoc := mapPinLoc pfx objName md name
    match acquireMapFd w name md t maxE pinLoc with
    | (.error e, acts) => (.error (.code (-(e : Int))), acts)
    | (.ok fd, acts) =>
      -- the shape check runs for reused and newly created maps alike
      if !mapMatchesExpectations w fd md t then
        (.error (.code (-(ENOTUNIQ : Int))), acts)
      else if w.pathExists pinLoc then
        -- reuse: the map stays pinned where it is
        (.ok (some fd), acts)
      else
        match pinMapSteps w objName md name fd pinLoc with
        | (.error e, acts2) => (.error e, acts ++ acts2)
        | (.ok _, acts2) => (.ok (some fd), acts ++ acts2)

/-- The `createMaps` loop over the (sorted-by-value) map symbols paired
with their definitions. -/
def createMapsGo (w : World) (ldver : Nat) (pfx objName : String) :
    List (String × MapDef) → Except Err (List (Option Nat)) × List FsAction
  | [] => (.ok [], [])
  | (name, md) :: rest =>
    match processMap w ldver pfx objName name md with
    | (.error e, acts) => (.error e, acts)
    | (.ok slot, acts) =>
      match createMapsGo w ldver pfx objName rest with
      | (.error e, acts2) => (.error e, acts ++ acts2)
      | (.ok slots, acts2) => (.ok (slot :: slots), acts ++ acts2)

/-- `createMaps`: processes every map of the object, producing one fd slot
per map definition and the trace of syscall attempts. -/
def createMaps (w : World) (ldver : Nat) (pfx elfPath : String)
    (maps : List (String × MapDef)) :
    Except Err (List (Option Nat)) × List FsAction :=
  createMapsGo w ldver pfx (pathToObjName elfPath) maps

/-! ### The relocator (`applyRelo` / `applyMapRelo`) -/

/-- 8-byte BPF instruction.  `code` is the 1-byte opcode; only `imm` and
`src_reg` are ever mutated by the loader. -/
structure BpfInsn where
  code : Nat
  dst_reg : Nat
  src_reg : Nat
  off : Int
  imm : Int
deriving DecidableEq, Repr

/-- A 16-byte `Elf64_Rel` entry. -/
structure Rel where
  r_offset : Nat
  r_info : Nat
deriving DecidableEq, Repr

/-- `BPF_LD | BPF_IMM | BPF_DW` -/
def BPF_LD_IMM_DW : Nat := 0x18
def BPF_PSEUDO_MAP_FD : Nat := 1

/-- `ELF64_R_SYM(info) = info >> 32` -/
def ELF64_R_SYM (info : Nat) : Nat := info / 2 ^ 32

/-- `applyRelo`: locate the instruction at `offset / sizeof(bpf_insn)`
(truncating byte offset to an instruction index); if its opcode is not
`BPF_LD_IMM_DW`, log and leave the stream unchanged; otherwise set its
`imm` to the map fd and its `src_reg` to `BPF_PSEUDO_MAP_FD`. -/
def applyRelo (insns : List BpfInsn) (offset : Nat) (fd : Int) : List BpfInsn :=
  let insnIndex := offset / 8
  match insns[insnIndex]? with
  | none => insns
  | some insn =>
    if insn.code ≠ BPF_LD_IMM_DW then insns
    else insns.set insnIndex { insn with imm := fd, src_reg := BPF_PSEUDO_MAP_FD }

/-- First map fd whose symbol name equals `symName` (the inner loop of
`applyMapRelo`, which breaks on the first match). -/
def findMapFd (mapNames : List String) (mapFds : List Int) (symName : String) :
    Option Int :=
  match (mapNames.zip mapFds).find? (fun p => p.1 == symName) with
  | some p => some p.2
  | none => none

/-- The per-section relocation loop of `applyMapRelo`.  The boolean is
false when a symbol-name lookup failed, which makes `applyMapRelo` return
early (leaving the remaining entries and sections untouched). -/
def applyRelosGo (symtab mapNames : List String) (mapFds : List Int)
    (insns : List BpfInsn) : List Rel → List BpfInsn × Bool
  | [] => (insns, true)
  | r :: rs =>
    match symtab[ELF64_R_SYM r.r_info]? with
    | none => (insns, false)
    | some symName =>
      let insns2 := match findMapFd mapNames mapFds symName with
        | some fd => applyRelo insns r.r_offset fd
        | none => insns
      applyRelosGo symtab mapNames mapFds insns2 rs

/-! ### Code sections (the in-memory `codeSection` record) -/

structure CodeSection where
  /-- section name, with every `/` converted to `_` -/
  name : String
  /-- the instruction stream (`cs.data`) -/
  insns : List BpfInsn
  /-- the parsed companion `.rel` entries (`cs.rel_data`) -/
  rels : List Rel
  prog_def : Option ProgDef
deriving DecidableEq, Repr

/-- `applyMapRelo` over all code sections; a symbol-lookup failure in one
section aborts the whole pass (the source `return`s), leaving the
remaining sections unrelocated. -/
def applyMapRelo (symtab mapNames : List String) (mapFds : List Int) :
    List CodeSection → List CodeSection
  | [] => []
  | s :: rest =>
    match applyRelosGo symtab mapNames mapFds s.insns s.rels with
    | (insns2, true) =>
      { s with insns := insns2 } :: applyMapRelo symtab mapNames mapFds rest
    | (insns2, false) => { s with insns := insns2 } :: rest

/-! ### The program manager (`loadCodeSections`) -/

/-- The final pin location of a program:
`/sys/fs/bpf/<pin_subdir|prefix>prog_<objName>_<progName>`. -/
def progPinLoc (pfx objName : String) (pd : ProgDef) (name : String) : String :=
  "/sys/fs/bpf/" ++ lookupPinSubdir pd.pin_subdir pfx ++ "prog_" ++
    objName ++ "_" ++ name

/-- The temporary pin location of a program when a SELinux context is
specified. -/
def progTmpPinLoc (objName : String) (pd : ProgDef) (name : String) : String :=
  "/sys/fs/bpf/" ++ lookupPinSubdir pd.selinux_context "" ++ "tmp_prog_" ++
    objName ++ "_" ++ name

/-- The trailing `chmod 0440` + `chown` steps of the non-reuse branch of
`loadCodeSections`. -/
def finishProgChmodChown (w : World) (pd : ProgDef) (pinLoc : String)
    (acts : List FsAction) : Except Err Unit × List FsAction :=
  match w.chmodP pinLoc 0o440 with
  | .error e => (.error (.code (-(e : Int))), acts ++ [.chmod pinLoc 0o440])
  | .ok _ =>
    match w.chownP pinLoc pd.uid pd.gid with
    | .error e => (.error (.code (-(e : Int))),
        acts ++ [.chmod pinLoc 0o440, .chown pinLoc pd.uid pd.gid])
    | .ok _ => (.ok (),
        acts ++ [.chmod pinLoc 0o440, .chown pinLoc pd.uid pd.gid])

/-- The pinning protocol of the non-reuse branch of `loadCodeSections`:
identical to the map protocol but with `tmp_prog_` / `prog_` basenames and
fixed mode `0440`. -/
def pinProgSteps (w : World) (objName : String) (pd : ProgDef) (name : String)
    (fd : Nat) (pinLoc : String) : Except Err Unit × List FsAction :=
  if specified pd.selinux_context then
    let createLoc := progTmpPinLoc objName pd name
    match w.fdPin fd createLoc with
    | .error e => (.error (.code (-(e : Int))), [.pin fd createLoc])
    | .ok _ =>
      match w.rename2NoReplace createLoc pinLoc with
      | .error e => (.error (.code (-(e : Int))),
          [.pin fd createLoc, .rename createLoc pinLoc true])
      | .ok _ => finishProgChmodChown w pd pinLoc
          [.pin fd createLoc, .rename createLoc pinLoc true]
  else
    match w.fdPin fd pinLoc with
    | .error e => (.error (.code (-(e : Int))), [.pin fd pinLoc])
    | .ok _ => finishProgChmodChown w pd pinLoc [.pin fd pinLoc]

/-- One iteration of the `loadCodeSections` loop.  `.ok none` means the
program was skipped (by the gate, or by an optional load failure) and no
fd slot or pin exists for it.  A failed `PROG_LOAD` or `retrieveProgram`
leaves the invalid fd value -1 in the scoped fd, and the source then does
`return fd.get()`, i.e. returns -1. -/
def processProg (w : World) (ldver : Nat) (pfx objName : String)
    (cs : CodeSection) : Except Err (Option Nat) × List FsAction :=
  match cs.prog_def with
  | none => (.error (.code (-(EINVAL : Int))), [])
  | some pd =>
    if progSkipped w ldver pd then (.ok none, [])
    else
      -- strip any potential $foo suffix before composing the pin path
      let name := takeBeforeLast '$' cs.name
      let pinLoc := progPinLoc pfx objName pd name
      if w.pathExists pinLoc then
        match w.retrieveProgram pinLoc with
        | .error _ => (.error (.code (-1)), [])
        | .ok fd => (.ok (some fd), [])
      else
        match w.progLoad cs.name with
        | .error _ =>
          if pd.optional then (.ok none, [.progLoad cs.name])
          else (.error (.code (-1)), [.progLoad cs.name])
        | .ok fd =>
          match pinProgSteps w objName pd name fd pinLoc with
          | (.error e, acts) => (.error e, .progLoad cs.name :: acts)
          | (.ok _, acts) => (.ok (some fd), .progLoad cs.name :: acts)

def loadCodeSectionsGo (w : World) (ldver : Nat) (pfx objName : String) :
    List CodeSection → Except Err (List Nat) × List FsAction
  | [] => (.ok [], [])
  | c :: rest =>
    match processProg w ldver pfx objName c with
    | (.error e, acts) => (.error e, acts)
    | (.ok slot, acts) =>
      match loadCodeSectionsGo w ldver pfx objName rest with
      | (.error e, acts2) => (.error e, acts ++ acts2)
      | (.ok fds, acts2) =>
        (.ok (match slot with | some fd => fd :: fds | none => fds), acts ++ acts2)

/-- `loadCodeSections`: fails with `-EINVAL` when the kernel version is
unavailable, then processes every code section in order. -/
def loadCodeSections (w : World) (ldver : Nat) (pfx elfPath : String)
    (cs : List CodeSection) : Except Err (List Nat) × List FsAction :=
  if w.kvers == 0 then (.error (.code (-(EINVAL : Int))), [])
  else loadCodeSectionsGo w ldver pfx (pathToObjName elfPath) cs

/-! ### The section scan of `readCodeSections` -/

/-- The prefixes of the `sectionNameTypes` table (the program types and
attach types they map to are irrelevant to the properties proved here). -/
def sectionNamePrefixes : List String :=
  ["bind4/", "bind6/", "cgroupskb/", "cgroupsock/", "cgroupsockcreate/",
   "cgroupsockrelease/", "connect4/", "connect6/", "egress/", "getsockopt/",
   "ingress/", "postbind4/", "postbind6/", "recvmsg4/", "recvmsg6/",
   "schedact/", "schedcls/", "sendmsg4/", "sendmsg6/", "setsockopt/",
   "skfilter/", "sockops/", "sysctl", "xdp/"]

/-- `getSectionType(name) != BPF_PROG_TYPE_UNSPEC`. -/
def isProgSectionName (name : String) : Bool :=
  sectionNamePrefixes.any (fun p => p.data.isPrefixOf name.data)

/-- A raw ELF section as far as `readCodeSections` consumes it: its name,
its content interpreted as instructions (for program sections) or as
relocation entries (for `.rel` sections), and the names of the `STT_FUNC`
symbols bound to it. -/
structure ElfSection where
  name : String
  insns : List BpfInsn
  rels : List Rel
  funcSyms : List String
deriving DecidableEq, Repr

/-- Scan outcome distinguishing the out-of-bounds section-header access
(undefined behavior in the C++) from ordinary early returns. -/
inductive ScanErr : Type
  | oob
deriving DecidableEq, Repr

deriving instance DecidableEq for Except

/-- The `prog_def` binding: the first `STT_FUNC` symbol of the section,
with `_def` appended, looked up among the `progs` section symbols. -/
def lookupProgDef (pdNames : List String) (pd : List ProgDef)
    (symName : String) : Option ProgDef :=
  match (pdNames.zip pd).find? (fun p => p.1 == symName ++ "_def") with
  | some p => some p.2
  | none => none

/-- The section loop of `readCodeSections`.  `i` is the index of the head
of `remaining` within `secs` (so `secs[i]? = remaining.head?`).  The
source guards the look-ahead read of section header `i+1` with
`cs_temp.data.size() > 0 && i < entries`, where `entries` is the number of
sections — the model performs the `i+1` access under exactly that guard,
reporting `.oob` when `i+1` is not a valid index. -/
def readCodeSectionsGo (secs : List ElfSection) (pdNames : List String)
    (pd : List ProgDef) : Nat → List ElfSection →
    Except ScanErr (List CodeSection)
  | _, [] => .ok []
  | i, s :: rest =>
    if !isProgSectionName s.name then readCodeSectionsGo secs pdNames pd (i + 1) rest
    else
      let oldName := s.name
      let name := slashToUnderscore oldName
      match s.funcSyms with
      | [] => .ok []  -- `if (ret || !csSymNames.size()) return ret;` with ret == 0
      | fsym :: _ =>
        let progDef := lookupProgDef pdNames pd fsym
        if s.insns.length > 0 && i < secs.length then
          match secs[i + 1]? with
          | none => .error .oob
          | some next =>
            let relData := if next.name == ".rel" ++ oldName then next.rels else []
            match readCodeSectionsGo secs pdNames pd (i + 1) rest with
            | .error e => .error e
            | .ok cs =>
              .ok ({ name := name, insns := s.insns, rels := relData,
                     prog_def := progDef } :: cs)
        else
          match readCodeSectionsGo secs pdNames pd (i + 1) rest with
          | .error e => .error e
          | .ok cs =>
            if s.insns.length > 0 then
              .ok ({ name := name, insns := s.insns, rels := [],
                     prog_def := progDef } :: cs)
            else .ok cs

def readCodeSections (secs : List ElfSection) (pdNames : List String)
    (pd : List ProgDef) : Except ScanErr (List CodeSection) :=
  readCodeSectionsGo secs pdNames pd 0 secs

/-! ### The per-object pipeline (`loadProg`) -/

def BPFLOADER_MAINLINE_VERSION : Nat := 42

/-- Result of `loadProg`: a return code with the trace of syscall attempts,
a process abort, or an out-of-bounds access (undefined behavior). -/
inductive LoadRes : Type
  | ret (code : Int) (trace : List FsAction)
  | aborted
  | oob
deriving Repr

/-- The per-object pipeline: bpfloader version gates, `createMaps`,
`readCodeSections` (a missing `progs` section makes it return -2 = -ENOENT,
accepted for mainline-only objects), `applyMapRelo`, `loadCodeSections`.
`maps` pairs the (sorted-by-value) map symbol names with their
definitions; `progsSection = none` models an object with no `progs`
section; `symtab` is the unsorted symbol-name table. -/
def loadProg (w : World) (ldver : Nat) (pfx elfPath : String)
    (bpfMinVer bpfMaxVer : Nat) (maps : List (String × MapDef))
    (progsSection : Option (List String × List ProgDef))
    (secs : List ElfSection) (symtab : List String) : LoadRes :=
  if ldver < bpfMinVer then .ret 0 []
  else if bpfMaxVer ≤ ldver then .ret 0 []
  else
    match createMaps w ldver pfx elfPath maps with
    | (.error .aborted, _) => .aborted
    | (.error (.code e), t) => .ret e t
    | (.ok mapSlots, t) =>
      match progsSection with
      | none =>
        if BPFLOADER_MAINLINE_VERSION ≤ bpfMinVer then .ret 0 t
        else .ret (-(ENOENT : Int)) t
      | some (pdNames, pd) =>
        match readCodeSections secs pdNames pd with
        | .error .oob => .oob
        | .ok cs =>
          let mapNames := maps.map (fun m => m.1)
          let mapFds := mapSlots.map (fun s =>
            match s with | some fd => (fd : Int) | none => -1)
          let cs2 := applyMapRelo symtab mapNames mapFds cs
          match loadCodeSections w ldver pfx elfPath cs2 with
          | (.error .aborted, _) => .aborted
          | (.error (.code e), t2) => .ret e (t ++ t2)
          | (.ok _, t2) => .ret 0 (t ++ t2)

/-- The spec's wording of the compatibility gate, as a proposition over the
raw tuple: kernel version in `[min_kver, max_kver)`, bpfloader version in
`[bpfloader_min_ver, bpfloader_max_ver)`, no build-type ignore matching the
running build type, no architecture ignore matching the running kernel
architecture. -/
def gateLoadsSpec (w : World) (ldver minK maxK minL maxL : Nat)
    (iEng iUser iUserdebug a32 a64 x32 x64 r64 : Bool) : Prop :=
  (minK ≤ w.kvers ∧ w.kvers < maxK) ∧
  (minL ≤ ldver ∧ ldver < maxL) ∧
  ¬ (buildIgnored w iEng iUser iUserdebug = true) ∧
  ¬ (archIgnored w a32 a64 x32 x64 r64 = true)

/-! ## Theorems -/

/-- C1: for every map and program definition, the loader's skip checks pass
(the definition is processed rather than skipped) exactly when the running
kernel version lies in `[min_kver, max_kver)`, the running bpfloader
version lies in `[bpfloader_min_ver, bpfloader_max_ver)`, no
`ignore_on_{eng,user,userdebug}` flag matching the running build type is
set, and no `ignore_on_{arm32,aarch64,x86_32,x86_64,riscv64}` flag matching
the running kernel architecture is set; in every other case the definition
is skipped. -/
theorem compat_gate_load_iff (w : World) (ldver : Nat) (md : MapDef)
    (pd : ProgDef) :
    (mapSkipped w ldver md = false ↔
      gateLoadsSpec w ldver md.min_kver md.max_kver md.bpfloader_min_ver
        md.bpfloader_max_ver md.ignore_on_eng md.ignore_on_user
        md.ignore_on_userdebug md.ignore_on_arm32 md.ignore_on_aarch64
        md.ignore_on_x86_32 md.ignore_on_x86_64 md.ignore_on_riscv64) ∧
    (progSkipped w ldver pd = false ↔
      gateLoadsSpec w ldver pd.min_kver pd.max_kver pd.bpfloader_min_ver
        pd.bpfloader_max_ver pd.ignore_on_eng pd.ignore_on_user
        pd.ignore_on_userdebug pd.ignore_on_arm32 pd.ignore_on_aarch64
        pd.ignore_on_x86_32 pd.ignore_on_x86_64 pd.ignore_on_riscv64) := by
  constructor <;>
    simp [mapSkipped, progSkipped, gateLoadsSpec, Bool.or_eq_false_iff,
      decide_eq_false_iff_not, not_lt] <;>
    tauto

/-! ### Helper lemmas about the `createMaps` loop -/

theorem processMap_ok_slot_iff (w : World) (ldver : Nat)
    (pfx objName name : String) (md : MapDef) (slot : Option Nat)
    (acts : List FsAction)
    (h : processMap w ldver pfx objName name md = (.ok slot, acts)) :
    (slot = none ↔ mapSkipped w ldver md = true) := by
  unfold processMap at h
  split at h
  · simp at h
  · split at h
    next hs =>
      simp only [Prod.mk.injEq, Except.ok.injEq] at h
      simp [← h.1, hs]
    next hs =>
      dsimp only at h
      split at h
      · simp at h
      · split at h
        · simp at h
        · split at h
          · simp only [Prod.mk.injEq, Except.ok.injEq] at h
            simp [← h.1, hs]
          · split at h
            · simp at h
            · simp only [Prod.mk.injEq, Except.ok.injEq] at h
              simp [← h.1, hs]

theorem createMapsGo_slots (w : World) (ldver : Nat) (pfx objName : String)
    (maps : List (String × MapDef)) (fds : List (Option Nat))
    (h : (createMapsGo w ldver pfx objName maps).1 = .ok fds) :
    fds.length = maps.length ∧
    ∀ i, (hi : i < maps.length) →
      (fds[i]? = some none ↔ mapSkipped w ldver (maps[i]).2 = true) := by
  induction maps generalizing fds with
  | nil =>
    simp [createMapsGo] at h
    subst h
    simp
  | cons hd tl ih =>
    obtain ⟨nm, m⟩ := hd
    unfold createMapsGo at h
    split at h
    next e acts heq => simp at h
    next slot acts heq =>
      split at h
      next e acts2 heq2 => simp at h
      next slots acts2 heq2 =>
        simp only at h
        cases h
        have hrec : (createMapsGo w ldver pfx objName tl).1 = .ok slots := by
          rw [heq2]
        obtain ⟨hlen, hidx⟩ := ih slots hrec
        refine ⟨by simp [hlen], ?_⟩
        intro i hi
        cases i with
        | zero =>
          simpa using processMap_ok_slot_iff w ldver pfx objName nm m slot acts heq
        | succ j =>
          have hj : j < tl.length := by simpa using hi
          simpa using hidx j hj

/-- C9: for every object whose `createMaps` completes successfully, the
map-fd vector has exactly one slot per MapDef entry, and a slot holds the
empty fd exactly when the map at that index (in sorted-by-value
maps-section symbol order) was skipped. -/
theorem createMaps_one_slot_per_mapdef (w : World) (ldver : Nat)
    (pfx elfPath : String) (mapNames : List String) (md : List MapDef)
    (fds : List (Option Nat))
    (hlen : mapNames.length = md.length)
    (hok : (createMaps w ldver pfx elfPath (mapNames.zip md)).1 = .ok fds) :
    fds.length = md.length ∧
    ∀ i, (hi : i < md.length) →
      (fds[i]? = some none ↔ mapSkipped w ldver md[i] = true) := by
  obtain ⟨h1, h2⟩ := createMapsGo_slots w ldver pfx (pathToObjName elfPath)
    (mapNames.zip md) fds hok
  have hzlen : (mapNames.zip md).length = md.length := by
    simp [hlen]
  constructor
  · rw [h1, hzlen]
  · intro i hi
    have hi' : i < (mapNames.zip md).length := by rw [hzlen]; exact hi
    have hiN : i < mapNames.length := by rw [hlen]; exact hi
    have := h2 i hi'
    rwa [List.getElem_zip] at this

/-- Is an action a `BPF_PROG_LOAD` attempt? -/
def FsAction.isProgLoad : FsAction → Bool
  | .progLoad _ => true
  | _ => false

theorem finishChmodChown_no_progLoad (w : World) (md : MapDef)
    (pinLoc : String) (acts : List FsAction)
    (h : ∀ a ∈ acts, a.isProgLoad = false) :
    ∀ a ∈ (finishChmodChown w md pinLoc acts).2, a.isProgLoad = false := by
  unfold finishChmodChown
  split <;> [skip; split] <;>
  · intro a ha
    rw [List.mem_append] at ha
    rcases ha with ha | ha
    · exact h a ha
    · simp only [List.mem_cons, List.mem_singleton, List.not_mem_nil] at ha
      rcases ha with rfl | ha <;> first | rfl | (rcases ha with rfl | ha) <;>
        first | rfl | cases ha

theorem pinMapSteps_no_progLoad (w : World) (objName : String) (md : MapDef)
    (name : String) (fd : Nat) (pinLoc : String) :
    ∀ a ∈ (pinMapSteps w objName md name fd pinLoc).2,
      a.isProgLoad = false := by
  unfold pinMapSteps
  split
  · dsimp only
    split
    · intro a ha
      simp only [List.mem_singleton] at ha
      subst ha; rfl
    · split
      · intro a ha
        simp only [List.mem_cons, List.mem_singleton, List.not_mem_nil] at ha
        rcases ha with rfl | rfl | ha <;> first | rfl | cases ha
      · exact finishChmodChown_no_progLoad w md pinLoc _ (by
          intro a ha
          simp only [List.mem_cons, List.mem_singleton, List.not_mem_nil] at ha
          rcases ha with rfl | rfl | ha <;> first | rfl | cases ha)
  · split
    · intro a ha
      simp only [List.mem_singleton] at ha
      subst ha; rfl
    · exact finishChmodChown_no_progLoad w md pinLoc _ (by
        intro a ha
        simp only [List.mem_singleton] at ha
        subst ha; rfl)

theorem acquireMapFd_no_progLoad (w : World) (name : String) (md : MapDef)
    (t maxE : Nat) (pinLoc : String) :
    ∀ a ∈ (acquireMapFd w name md t maxE pinLoc).2, a.isProgLoad = false := by
  unfold acquireMapFd
  split
  · intro a ha; cases ha
  · intro a ha
    simp only [List.mem_singleton] at ha
    subst ha; rfl

theorem processMap_no_progLoad (w : World) (ldver : Nat)
    (pfx objName name : String) (md : MapDef) :
    ∀ a ∈ (processMap w ldver pfx objName name md).2, a.isProgLoad = false := by
  unfold processMap
  split
  · intro a ha; cases ha
  · split
    · intro a ha; cases ha
    · dsimp only
      split
      next e acts heq =>
        intro a ha
        exact acquireMapFd_no_progLoad w name md _ _ _ a (by rw [heq]; exact ha)
      next fd acts heq =>
        split
        · intro a ha
          exact acquireMapFd_no_progLoad w name md _ _ _ a (by rw [heq]; exact ha)
        · split
          · intro a ha
            exact acquireMapFd_no_progLoad w name md _ _ _ a (by rw [heq]; exact ha)
          · split
            next e acts2 heq2 =>
              intro a ha
              rw [List.mem_append] at ha
              rcases ha with ha | ha
              · exact acquireMapFd_no_progLoad w name md _ _ _ a (by rw [heq]; exact ha)
              · exact pinMapSteps_no_progLoad w objName md name fd _ a (by rw [heq2]; exact ha)
            next u acts2 heq2 =>
              intro a ha
              rw [List.mem_append] at ha
              rcases ha with ha | ha
              · exact acquireMapFd_no_progLoad w name md _ _ _ a (by rw [heq]; exact ha)
              · exact pinMapSteps_no_progLoad w objName md name fd _ a (by rw [heq2]; exact ha)

theorem createMapsGo_no_progLoad (w : World) (ldver : Nat)
    (pfx objName : String) (maps : List (String × MapDef)) :
    ∀ a ∈ (createMapsGo w ldver pfx objName maps).2, a.isProgLoad = false := by
  induction maps with
  | nil => intro a ha; cases ha
  | cons hd tl ih =>
    obtain ⟨nm, m⟩ := hd
    unfold createMapsGo
    split
    next e acts heq =>
      intro a ha
      exact processMap_no_progLoad w ldver pfx objName nm m a (by rw [heq]; exact ha)
    next slot acts heq =>
      split
      next e acts2 heq2 =>
        intro a ha
        rw [List.mem_append] at ha
        rcases ha with ha | ha
        · exact processMap_no_progLoad w ldver pfx objName nm m a (by rw [heq]; exact ha)
        · exact ih a (by rw [heq2]; exact ha)
      next slots acts2 heq2 =>
        intro a ha
        rw [List.mem_append] at ha
        rcases ha with ha | ha
        · exact processMap_no_progLoad w ldver pfx objName nm m a (by rw [heq]; exact ha)
        · exact ih a (by rw [heq2]; exact ha)

/-- `createMapsGo` distributes over list append (the loop processes the
maps left to right and stops at the first error). -/
theorem createMapsGo_append (w : World) (ldver : Nat) (pfx objName : String)
    (l1 l2 : List (String × MapDef)) :
    createMapsGo w ldver pfx objName (l1 ++ l2) =
      match createMapsGo w ldver pfx objName l1 with
      | (.error e, t1) => (.error e, t1)
      | (.ok f1, t1) =>
        match createMapsGo w ldver pfx objName l2 with
        | (.error e, t2) => (.error e, t1 ++ t2)
        | (.ok f2, t2) => (.ok (f1 ++ f2), t1 ++ t2) := by
  induction l1 with
  | nil =>
    simp only [List.nil_append, createMapsGo]
    rcases createMapsGo w ldver pfx objName l2 with ⟨r, t⟩
    cases r <;> simp
  | cons hd tl ih =>
    obtain ⟨nm, m⟩ := hd
    have lhs_eq : createMapsGo w ldver pfx objName ((nm, m) :: (tl ++ l2)) =
        match processMap w ldver pfx objName nm m with
        | (.error e, acts) => (.error e, acts)
        | (.ok slot, acts) =>
          match createMapsGo w ldver pfx objName (tl ++ l2) with
          | (.error e, acts2) => (.error e, acts ++ acts2)
          | (.ok slots, acts2) => (.ok (slot :: slots), acts ++ acts2) := rfl
    have rhs_eq : createMapsGo w ldver pfx objName ((nm, m) :: tl) =
        match processMap w ldver pfx objName nm m with
        | (.error e, acts) => (.error e, acts)
        | (.ok slot, acts) =>
          match createMapsGo w ldver pfx objName tl with
          | (.error e, acts2) => (.error e, acts ++ acts2)
          | (.ok slots, acts2) => (.ok (slot :: slots), acts ++ acts2) := rfl
    rw [List.cons_append, lhs_eq, rhs_eq, ih]
    rcases processMap w ldver pfx objName nm m with ⟨r, t⟩
    cases r with
    | error e => rfl
    | ok slot =>
      rcases createMapsGo w ldver pfx objName tl with ⟨r1, t1⟩
      cases r1 with
      | error e => simp
      | ok f1 =>
        rcases createMapsGo w ldver pfx objName l2 with ⟨r2, t2⟩
        cases r2 <;> simp

/-- When the shape validation of a non-skipped map fails, the `createMaps`
loop iteration returns the distinguished `-ENOTUNIQ` code (this holds for
reused and newly created maps alike: `fd` is whatever `acquireMapFd`
produced). -/
theorem processMap_mismatch (w : World) (ldver : Nat)
    (pfx objName name : String) (md : MapDef) (fd : Nat)
    (hz : md.zero = 0) (hs : mapSkipped w ldver md = false)
    (hacq : (acquireMapFd w name md (substMapType w md.type)
        (effectiveMaxEntries w (substMapType w md.type) md.max_entries)
        (mapPinLoc pfx objName md name)).1 = .ok fd)
    (hmm : mapMatchesExpectations w fd md (substMapType w md.type) = false) :
    processMap w ldver pfx objName name md =
      (.error (.code (-(ENOTUNIQ : Int))),
       (acquireMapFd w name md (substMapType w md.type)
         (effectiveMaxEntries w (substMapType w md.type) md.max_entries)
         (mapPinLoc pfx objName md name)).2) := by
  have h1 : ¬ md.zero ≠ 0 := by simp [hz]
  have h2 : ¬ mapSkipped w ldver md = true := by simp [hs]
  unfold processMap
  rw [if_neg h1, if_neg h2]
  dsimp only
  rcases hpair : acquireMapFd w name md (substMapType w md.type)
      (effectiveMaxEntries w (substMapType w md.type) md.max_entries)
      (mapPinLoc pfx objName md name) with ⟨res, a⟩
  rw [hpair] at hacq
  simp only at hacq
  subst hacq
  simp [hmm]

/-- C2: when the shape validation of a reached map (reused or newly
created alike: `fd` is whatever `acquireMapFd` produced) finds any
discrepancy, `createMaps` returns the distinguished `-ENOTUNIQ` code, the
per-object pipeline stops there, and no program from the object is loaded:
the object's whole syscall trace contains no `BPF_PROG_LOAD` attempt. -/
theorem map_shape_mismatch_fails_object (w : World) (ldver : Nat)
    (pfx elfPath : String) (maps1 : List (String × MapDef)) (nm : String)
    (md : MapDef) (maps2 : List (String × MapDef)) (bpfMinVer bpfMaxVer : Nat)
    (progsSection : Option (List String × List ProgDef))
    (secs : List ElfSection) (symtab : List String)
    (fds1 : List (Option Nat)) (fd : Nat)
    (hver1 : bpfMinVer ≤ ldver) (hver2 : ldver < bpfMaxVer)
    (h1 : (createMapsGo w ldver pfx (pathToObjName elfPath) maps1).1 = .ok fds1)
    (hz : md.zero = 0) (hs : mapSkipped w ldver md = false)
    (hacq : (acquireMapFd w nm md (substMapType w md.type)
        (effectiveMaxEntries w (substMapType w md.type) md.max_entries)
        (mapPinLoc pfx (pathToObjName elfPath) md nm)).1 = .ok fd)
    (hmm : mapMatchesExpectations w fd md (substMapType w md.type) = false) :
    ∃ trace,
      loadProg w ldver pfx elfPath bpfMinVer bpfMaxVer
        (maps1 ++ (nm, md) :: maps2) progsSection secs symtab =
        .ret (-(ENOTUNIQ : Int)) trace ∧
      ∀ a ∈ trace, a.isProgLoad = false := by
  have hpm := processMap_mismatch w ldver pfx (pathToObjName elfPath) nm md fd
    hz hs hacq hmm
  have h1' : createMapsGo w ldver pfx (pathToObjName elfPath) maps1 =
      (.ok fds1, (createMapsGo w ldver pfx (pathToObjName elfPath) maps1).2) :=
    Prod.ext h1 rfl
  have hcons : createMapsGo w ldver pfx (pathToObjName elfPath)
      ((nm, md) :: maps2) =
      (.error (.code (-(ENOTUNIQ : Int))),
       (acquireMapFd w nm md (substMapType w md.type)
         (effectiveMaxEntries w (substMapType w md.type) md.max_entries)
         (mapPinLoc pfx (pathToObjName elfPath) md nm)).2) := by
    have ceq : createMapsGo w ldver pfx (pathToObjName elfPath)
        ((nm, md) :: maps2) =
        match processMap w ldver pfx (pathToObjName elfPath) nm md with
        | (.error e, acts) => (.error e, acts)
        | (.ok slot, acts) =>
          match createMapsGo w ldver pfx (pathToObjName elfPath) maps2 with
          | (.error e, acts2) => (.error e, acts ++ acts2)
          | (.ok slots, acts2) => (.ok (slot :: slots), acts ++ acts2) := rfl
    rw [ceq, hpm]
  have hobj : createMapsGo w ldver pfx (pathToObjName elfPath)
      (maps1 ++ (nm, md) :: maps2) =
      (.error (.code (-(ENOTUNIQ : Int))),
       (createMapsGo w ldver pfx (pathToObjName elfPath) maps1).2 ++
       (acquireMapFd w nm md (substMapType w md.type)
         (effectiveMaxEntries w (substMapType w md.type) md.max_entries)
         (mapPinLoc pfx (pathToObjName elfPath) md nm)).2) := by
    rw [createMapsGo_append, h1']
    dsimp only
    rw [hcons]
  refine ⟨(createMapsGo w ldver pfx (pathToObjName elfPath) maps1).2 ++
    (acquireMapFd w nm md (substMapType w md.type)
      (effectiveMaxEntries w (substMapType w md.type) md.max_entries)
      (mapPinLoc pfx (pathToObjName elfPath) md nm)).2, ?_, ?_⟩
  · unfold loadProg
    rw [if_neg (by omega), if_neg (by omega)]
    unfold createMaps
    rw [hobj]
  · intro a ha
    rw [List.mem_append] at ha
    rcases ha with ha | ha
    · exact createMapsGo_no_progLoad w ldver pfx (pathToObjName elfPath) maps1 a ha
    · exact acquireMapFd_no_progLoad w nm md _ _ _ a ha

/-! ### Helper lemmas about the relocator -/

theorem applyRelo_eq (insns : List BpfInsn) (off : Nat) (fd : Int) :
    applyRelo insns off fd =
      match insns[off / 8]? with
      | none => insns
      | some insn =>
        if insn.code ≠ BPF_LD_IMM_DW then insns
        else insns.set (off / 8)
          { insn with imm := fd, src_reg := BPF_PSEUDO_MAP_FD } := rfl

theorem applyRelosGo_cons (symtab mapNames : List String) (mapFds : List Int)
    (insns : List BpfInsn) (r : Rel) (rs : List Rel) :
    applyRelosGo symtab mapNames mapFds insns (r :: rs) =
      match symtab[ELF64_R_SYM r.r_info]? with
      | none => (insns, false)
      | some symName =>
        applyRelosGo symtab mapNames mapFds
          (match findMapFd mapNames mapFds symName with
           | some fd => applyRelo insns r.r_offset fd
           | none => insns) rs := rfl

theorem applyRelo_of_bad_code (insns : List BpfInsn) (off : Nat) (fd : Int)
    (insn : BpfInsn) (h : insns[off / 8]? = some insn)
    (hbad : insn.code ≠ BPF_LD_IMM_DW) :
    applyRelo insns off fd = insns := by
  rw [applyRelo_eq, h]
  dsimp only
  rw [if_pos hbad]

theorem applyRelo_of_good_code (insns : List BpfInsn) (off : Nat) (fd : Int)
    (insn : BpfInsn) (h : insns[off / 8]? = some insn)
    (hgood : insn.code = BPF_LD_IMM_DW) :
    applyRelo insns off fd =
      insns.set (off / 8)
        { insn with imm := fd, src_reg := BPF_PSEUDO_MAP_FD } := by
  rw [applyRelo_eq, h]
  dsimp only
  rw [if_neg (by simp [hgood])]

theorem applyRelo_get_ne (insns : List BpfInsn) (off : Nat) (fd : Int)
    (idx : Nat) (h : off / 8 ≠ idx) :
    (applyRelo insns off fd)[idx]? = insns[idx]? := by
  rw [applyRelo_eq]
  cases hx : insns[off / 8]? with
  | none => rfl
  | some insn =>
    dsimp only
    split
    · rfl
    · exact List.getElem?_set_ne h

theorem applyRelo_get_fields (insns : List BpfInsn) (off : Nat) (fd : Int)
    (idx : Nat) (insn : BpfInsn) (h : insns[idx]? = some insn) :
    ∃ insn2, (applyRelo insns off fd)[idx]? = some insn2 ∧
      insn2.code = insn.code ∧ insn2.dst_reg = insn.dst_reg ∧
      insn2.off = insn.off := by
  by_cases hx : off / 8 = idx
  · subst hx
    cases hc : decide (insn.code = BPF_LD_IMM_DW) with
    | false =>
      rw [applyRelo_of_bad_code insns off fd insn h (of_decide_eq_false hc)]
      exact ⟨insn, h, rfl, rfl, rfl⟩
    | true =>
      rw [applyRelo_of_good_code insns off fd insn h (of_decide_eq_true hc)]
      have hlt : off / 8 < insns.length := (List.getElem?_eq_some.mp h).1
      exact ⟨_, List.getElem?_set_self hlt, rfl, rfl, rfl⟩
  · rw [applyRelo_get_ne insns off fd idx hx]
    exact ⟨insn, h, rfl, rfl, rfl⟩

theorem applyRelosGo_get_untouched (symtab mapNames : List String)
    (mapFds : List Int) (rels : List Rel) :
    ∀ (insns : List BpfInsn) (idx : Nat),
      (∀ r' ∈ rels, r'.r_offset / 8 ≠ idx) →
      (applyRelosGo symtab mapNames mapFds insns rels).1[idx]? = insns[idx]? := by
  induction rels with
  | nil => intro insns idx _; rfl
  | cons r rs ih =>
    intro insns idx h
    rw [applyRelosGo_cons]
    cases hs : symtab[ELF64_R_SYM r.r_info]? with
    | none => rfl
    | some s =>
      dsimp only
      cases hf : findMapFd mapNames mapFds s with
      | none => exact ih insns idx (fun r' hr' => h r' (List.mem_cons_of_mem r hr'))
      | some fd =>
        dsimp only
        rw [ih _ idx (fun r' hr' => h r' (List.mem_cons_of_mem r hr'))]
        exact applyRelo_get_ne insns r.r_offset fd idx (h r (List.mem_cons_self r rs))

/-! ### Main relocation theorems -/

/-- C3: for every relocation entry whose symbol name matches a collected
map symbol (yielding the fd of the first map of that name) and whose
target instruction has opcode `BPF_LD|BPF_IMM|BPF_DW` (0x18), after the
relocation pass the target instruction's `imm` equals the map fd and its
`src_reg` equals `BPF_PSEUDO_MAP_FD` (1), while `code`, `dst_reg` and
`off` are unchanged.  The entry sits between `l1` (whose symbol lookups
all succeed, so processing reaches the entry) and `l2` (whose entries
target other instructions, so the effect survives). -/
theorem applied_map_relocation_sets_fd (symtab mapNames : List String)
    (mapFds : List Int) (l1 l2 : List Rel) (r : Rel)
    (symName : String) (fd : Int)
    (hsym : symtab[ELF64_R_SYM r.r_info]? = some symName)
    (hfd : findMapFd mapNames mapFds symName = some fd)
    (hafter : ∀ r' ∈ l2, r'.r_offset / 8 ≠ r.r_offset / 8) :
    ∀ (insns : List BpfInsn) (insn : BpfInsn),
      (∀ r' ∈ l1, (symtab[ELF64_R_SYM r'.r_info]?).isSome = true) →
      insns[r.r_offset / 8]? = some insn →
      insn.code = BPF_LD_IMM_DW →
      ∃ insn2,
        (applyRelosGo symtab mapNames mapFds insns
          (l1 ++ r :: l2)).1[r.r_offset / 8]? = some insn2 ∧
        insn2.imm = fd ∧ insn2.src_reg = BPF_PSEUDO_MAP_FD ∧
        insn2.code = insn.code ∧ insn2.dst_reg = insn.dst_reg ∧
        insn2.off = insn.off := by
  induction l1 with
  | nil =>
    intro insns insn _ hinsn hcode
    rw [List.nil_append, applyRelosGo_cons, hsym]
    dsimp only
    rw [hfd]
    dsimp only
    rw [applyRelo_of_good_code insns r.r_offset fd insn hinsn hcode,
      applyRelosGo_get_untouched symtab mapNames mapFds l2 _ _ hafter]
    have hlt : r.r_offset / 8 < insns.length := (List.getElem?_eq_some.mp hinsn).1
    exact ⟨_, List.getElem?_set_self hlt, rfl, rfl, rfl, rfl, rfl⟩
  | cons r1 l1x ih =>
    intro insns insn hpre hinsn hcode
    have h1 : (symtab[ELF64_R_SYM r1.r_info]?).isSome = true :=
      hpre r1 (List.mem_cons_self r1 l1x)
    obtain ⟨s1, hs1⟩ := Option.isSome_iff_exists.mp h1
    have hpre2 : ∀ r' ∈ l1x, (symtab[ELF64_R_SYM r'.r_info]?).isSome = true :=
      fun r' hr' => hpre r' (List.mem_cons_of_mem r1 hr')
    rw [List.cons_append, applyRelosGo_cons, hs1]
    dsimp only
    cases hf1 : findMapFd mapNames mapFds s1 with
    | none =>
      dsimp only
      exact ih insns insn hpre2 hinsn hcode
    | some fd1 =>
      dsimp only
      obtain ⟨ins1, hi1, hc1, hd1, ho1⟩ :=
        applyRelo_get_fields insns r1.r_offset fd1 (r.r_offset / 8) insn hinsn
      obtain ⟨ins2, hi2, himm, hsrc, hc2, hd2, ho2⟩ :=
        ih _ ins1 hpre2 hi1 (hc1.trans hcode)
      exact ⟨ins2, hi2, himm, hsrc, hc2.trans hc1, hd2.trans hd1, ho2.trans ho1⟩

theorem applied_map_relocation_sets_fd_witness :
    ∃ insn2,
      (applyRelosGo ["m"] ["m"] [7]
        [⟨BPF_LD_IMM_DW, 3, 0, 5, 9⟩, ⟨0, 0, 0, 0, 0⟩]
        ([] ++ (⟨0, 0⟩ : Rel) :: [])).1[(Rel.r_offset ⟨0, 0⟩) / 8]? = some insn2 ∧
      insn2.imm = 7 ∧ insn2.src_reg = BPF_PSEUDO_MAP_FD ∧
      insn2.code = BpfInsn.code ⟨BPF_LD_IMM_DW, 3, 0, 5, 9⟩ ∧
      insn2.dst_reg = BpfInsn.dst_reg ⟨BPF_LD_IMM_DW, 3, 0, 5, 9⟩ ∧
      insn2.off = BpfInsn.off ⟨BPF_LD_IMM_DW, 3, 0, 5, 9⟩ :=
  applied_map_relocation_sets_fd ["m"] ["m"] [7] [] [] ⟨0, 0⟩ "m" 7
    (by rfl) (by rfl) (by intro r' hr'; cases hr')
    [⟨BPF_LD_IMM_DW, 3, 0, 5, 9⟩, ⟨0, 0, 0, 0, 0⟩]
    ⟨BPF_LD_IMM_DW, 3, 0, 5, 9⟩
    (by intro r' hr'; cases hr') (by rfl) (by rfl)

/-- The non-0x18 instruction used in the C4 witness. -/
def callInsn : BpfInsn := ⟨0x85, 0, 0, 0, 0⟩

/-- C4 (amended): the relocation target is the instruction at index
`r_offset / 8` — the byte offset is truncated to an instruction boundary
and no 8-byte-alignment check is performed.  Only the opcode is checked:
when the target instruction's opcode is not 0x18 the relocation is skipped
(the instruction — all of its fields — is left unchanged and the
relocation pass continues without failing the load); when the opcode is
0x18 the relocation rewrites exactly that instruction. -/
theorem applyRelo_opcode_gate (symtab mapNames : List String)
    (mapFds : List Int) (insns : List BpfInsn) (r : Rel) (rs : List Rel)
    (symName : String) (insn : BpfInsn) (fd : Int)
    (hsym : symtab[ELF64_R_SYM r.r_info]? = some symName)
    (hinsn : insns[r.r_offset / 8]? = some insn) :
    (insn.code ≠ BPF_LD_IMM_DW →
      applyRelo insns r.r_offset fd = insns ∧
      applyRelosGo symtab mapNames mapFds insns (r :: rs) =
        applyRelosGo symtab mapNames mapFds insns rs) ∧
    (insn.code = BPF_LD_IMM_DW →
      applyRelo insns r.r_offset fd =
        insns.set (r.r_offset / 8)
          { insn with imm := fd, src_reg := BPF_PSEUDO_MAP_FD }) := by
  refine ⟨fun hbad => ⟨applyRelo_of_bad_code insns r.r_offset fd insn hinsn hbad, ?_⟩,
    fun hgood => applyRelo_of_good_code insns r.r_offset fd insn hinsn hgood⟩
  rw [applyRelosGo_cons, hsym]
  dsimp only
  cases hf : findMapFd mapNames mapFds symName with
  | none => rfl
  | some fd1 =>
    dsimp only
    rw [applyRelo_of_bad_code insns r.r_offset fd1 insn hinsn hbad]

theorem applyRelo_opcode_gate_witness :
    ((BpfInsn.code callInsn ≠ BPF_LD_IMM_DW →
      applyRelo [callInsn] (Rel.r_offset ⟨0, 0⟩) 7 = [callInsn] ∧
      applyRelosGo ["m"] ["m"] [7] [callInsn] ((⟨0, 0⟩ : Rel) :: []) =
        applyRelosGo ["m"] ["m"] [7] [callInsn] []) ∧
    (BpfInsn.code callInsn = BPF_LD_IMM_DW →
      applyRelo [callInsn] (Rel.r_offset ⟨0, 0⟩) 7 =
        [callInsn].set ((Rel.r_offset ⟨0, 0⟩) / 8)
          { callInsn with imm := 7, src_reg := BPF_PSEUDO_MAP_FD })) :=
  applyRelo_opcode_gate ["m"] ["m"] [7] [callInsn] ⟨0, 0⟩ [] "m" callInsn 7
    (by rfl) (by rfl)

/-- C4 counterexample: a relocation entry whose byte offset 4 is *not*
8-byte aligned is not skipped: since the enclosing instruction (index
`4 / 8 = 0`) has opcode 0x18, the relocation is applied and the
instruction's bytes change. -/
theorem applyRelo_misaligned_not_skipped :
    applyRelosGo ["m"] ["m"] [7] [⟨BPF_LD_IMM_DW, 0, 0, 0, 0⟩]
        [⟨4, 0⟩] =
      ([⟨BPF_LD_IMM_DW, 0, BPF_PSEUDO_MAP_FD, 0, 7⟩], true) ∧
    (4 : Nat) % 8 ≠ 0 ∧
    ([⟨BPF_LD_IMM_DW, 0, BPF_PSEUDO_MAP_FD, 0, 7⟩] : List BpfInsn) ≠
      [⟨BPF_LD_IMM_DW, 0, 0, 0, 0⟩] :=
  ⟨by rfl, by decide, by decide⟩

/-! ### Helper lemmas about pinning and program loading -/

theorem finishChmodChown_trace (w : World) (md : MapDef) (pinLoc : String)
    (acts : List FsAction) :
    ∃ rest, (finishChmodChown w md pinLoc acts).2 = acts ++ rest := by
  unfold finishChmodChown
  split
  · exact ⟨_, rfl⟩
  · split
    · exact ⟨_, rfl⟩
    · exact ⟨_, rfl⟩

theorem finishProgChmodChown_trace (w : World) (pd : ProgDef) (pinLoc : String)
    (acts : List FsAction) :
    ∃ rest, (finishProgChmodChown w pd pinLoc acts).2 = acts ++ rest := by
  unfold finishProgChmodChown
  split
  · exact ⟨_, rfl⟩
  · split
    · exact ⟨_, rfl⟩
    · exact ⟨_, rfl⟩

theorem pinMapSteps_specified (w : World) (objName : String) (md : MapDef)
    (nm : String) (fd : Nat) (pinLoc : String)
    (hspec : specified md.selinux_context = true)
    (hpin : w.fdPin fd (mapTmpPinLoc objName md nm) = .ok ()) :
    ∃ rest, (pinMapSteps w objName md nm fd pinLoc).2 =
      .pin fd (mapTmpPinLoc objName md nm) ::
      .rename (mapTmpPinLoc objName md nm) pinLoc true :: rest := by
  unfold pinMapSteps
  rw [if_pos hspec]
  dsimp only
  rw [hpin]
  dsimp only
  cases hr : w.rename2NoReplace (mapTmpPinLoc objName md nm) pinLoc with
  | error e => exact ⟨[], rfl⟩
  | ok u =>
    dsimp only
    obtain ⟨rest, hrest⟩ := finishChmodChown_trace w md pinLoc
      [.pin fd (mapTmpPinLoc objName md nm),
       .rename (mapTmpPinLoc objName md nm) pinLoc true]
    exact ⟨rest, hrest⟩

theorem pinMapSteps_unspecified (w : World) (objName : String) (md : MapDef)
    (nm : String) (fd : Nat) (pinLoc : String)
    (hspec : specified md.selinux_context = false) :
    ∃ rest, (pinMapSteps w objName md nm fd pinLoc).2 =
      .pin fd pinLoc :: rest := by
  unfold pinMapSteps
  rw [if_neg (by simp [hspec])]
  cases hp : w.fdPin fd pinLoc with
  | error e => exact ⟨[], rfl⟩
  | ok u =>
    dsimp only
    obtain ⟨rest, hrest⟩ := finishChmodChown_trace w md pinLoc [.pin fd pinLoc]
    exact ⟨rest, hrest⟩

theorem pinProgSteps_specified (w : World) (objName : String) (pd : ProgDef)
    (nm : String) (fd : Nat) (pinLoc : String)
    (hspec : specified pd.selinux_context = true)
    (hpin : w.fdPin fd (progTmpPinLoc objName pd nm) = .ok ()) :
    ∃ rest, (pinProgSteps w objName pd nm fd pinLoc).2 =
      .pin fd (progTmpPinLoc objName pd nm) ::
      .rename (progTmpPinLoc objName pd nm) pinLoc true :: rest := by
  unfold pinProgSteps
  rw [if_pos hspec]
  dsimp only
  rw [hpin]
  dsimp only
  cases hr : w.rename2NoReplace (progTmpPinLoc objName pd nm) pinLoc with
  | error e => exact ⟨[], rfl⟩
  | ok u =>
    dsimp only
    obtain ⟨rest, hrest⟩ := finishProgChmodChown_trace w pd pinLoc
      [.pin fd (progTmpPinLoc objName pd nm),
       .rename (progTmpPinLoc objName pd nm) pinLoc true]
    exact ⟨rest, hrest⟩

theorem pinProgSteps_unspecified (w : World) (objName : String) (pd : ProgDef)
    (nm : String) (fd : Nat) (pinLoc : String)
    (hspec : specified pd.selinux_context = false) :
    ∃ rest, (pinProgSteps w objName pd nm fd pinLoc).2 =
      .pin fd pinLoc :: rest := by
  unfold pinProgSteps
  rw [if_neg (by simp [hspec])]
  cases hp : w.fdPin fd pinLoc with
  | error e => exact ⟨[], rfl⟩
  | ok u =>
    dsimp only
    obtain ⟨rest, hrest⟩ := finishProgChmodChown_trace w pd pinLoc [.pin fd pinLoc]
    exact ⟨rest, hrest⟩

theorem acquireMapFd_create (w : World) (nm : String) (md : MapDef)
    (t maxE : Nat) (pinLoc : String) (fd : Nat)
    (hnr : w.pathExists pinLoc = false)
    (hcr : w.mapCreate (mapCreateRequest w nm md t maxE) = .ok fd) :
    acquireMapFd w nm md t maxE pinLoc =
      (.ok fd, [.mapCreate (mapCreateRequest w nm md t maxE)]) := by
  unfold acquireMapFd
  rw [if_neg (by simp [hnr])]
  dsimp only
  rw [hcr]

theorem processMap_created (w : World) (ldver : Nat) (pfx objName nm : String)
    (md : MapDef) (fd : Nat)
    (hz : md.zero = 0) (hs : mapSkipped w ldver md = false)
    (hnr : w.pathExists (mapPinLoc pfx objName md nm) = false)
    (hcr : w.mapCreate (mapCreateRequest w nm md (substMapType w md.type)
      (effectiveMaxEntries w (substMapType w md.type) md.max_entries)) = .ok fd)
    (hmm : mapMatchesExpectations w fd md (substMapType w md.type) = true) :
    (processMap w ldver pfx objName nm md).2 =
      .mapCreate (mapCreateRequest w nm md (substMapType w md.type)
        (effectiveMaxEntries w (substMapType w md.type) md.max_entries)) ::
      (pinMapSteps w objName md nm fd (mapPinLoc pfx objName md nm)).2 := by
  unfold processMap
  rw [if_neg (by simp [hz]), if_neg (by simp [hs])]
  dsimp only
  rw [acquireMapFd_create w nm md _ _ _ fd hnr hcr]
  dsimp only
  rw [if_neg (by simp [hmm]), if_neg (by simp [hnr])]
  rcases pinMapSteps w objName md nm fd (mapPinLoc pfx objName md nm) with ⟨r, acts⟩
  cases r <;> rfl

theorem processProg_created (w : World) (ldver : Nat) (pfx objName : String)
    (cs : CodeSection) (pd : ProgDef) (fd : Nat)
    (hpd : cs.prog_def = some pd)
    (hps : progSkipped w ldver pd = false)
    (hnr : w.pathExists
      (progPinLoc pfx objName pd (takeBeforeLast '$' cs.name)) = false)
    (hpl : w.progLoad cs.name = .ok fd) :
    (processProg w ldver pfx objName cs).2 =
      .progLoad cs.name ::
      (pinProgSteps w objName pd (takeBeforeLast '$' cs.name) fd
        (progPinLoc pfx objName pd (takeBeforeLast '$' cs.name))).2 := by
  unfold processProg
  rw [hpd]
  dsimp only
  rw [if_neg (by simp [hps])]
  rw [if_neg (by simp [hnr]), hpl]
  dsimp only
  rcases pinProgSteps w objName pd (takeBeforeLast '$' cs.name) fd
    (progPinLoc pfx objName pd (takeBeforeLast '$' cs.name)) with ⟨r, acts⟩
  cases r <;> rfl

theorem processProg_load_failed (w : World) (ldver : Nat)
    (pfx objName : String) (cs : CodeSection) (pd : ProgDef) (e : Nat)
    (hpd : cs.prog_def = some pd)
    (hps : progSkipped w ldver pd = false)
    (hnr : w.pathExists
      (progPinLoc pfx objName pd (takeBeforeLast '$' cs.name)) = false)
    (hpl : w.progLoad cs.name = .error e) :
    processProg w ldver pfx objName cs =
      (if pd.optional then (.ok none, [.progLoad cs.name])
       else (.error (.code (-1)), [.progLoad cs.name])) := by
  unfold processProg
  rw [hpd]
  dsimp only
  rw [if_neg (by simp [hps])]
  rw [if_neg (by simp [hnr]), hpl]

/-! ### Concrete sample data, used to instantiate the theorems -/

/-- A plain hash map definition that passes every gate and matches the
sample world's kernel map shape. -/
def sampleMapDef : MapDef where
  type := BPF_MAP_TYPE_HASH
  key_size := 4
  value_size := 4
  max_entries := 16
  map_flags := 0
  zero := 0
  uid := 0
  gid := 3003
  mode := 0o640
  bpfloader_min_ver := 0
  bpfloader_max_ver := 0x10000
  min_kver := 0
  max_kver := 0xFFFFFFFF
  ignore_on_eng := false
  ignore_on_user := false
  ignore_on_userdebug := false
  ignore_on_arm32 := false
  ignore_on_aarch64 := false
  ignore_on_x86_32 := false
  ignore_on_x86_64 := false
  ignore_on_riscv64 := false
  shared := false
  selinux_context := .unspecified
  pin_subdir := .unspecified

/-- A map definition skipped by the bpfloader version gate. -/
def skippedMapDef : MapDef :=
  { sampleMapDef with bpfloader_min_ver := 0x999999 }

/-- A sample world: kernel 5.15 on 64-bit arm, user build, all syscalls
succeeding, with kernel map shapes agreeing with `sampleMapDef`. -/
def wOk : World where
  kvers := KVER 5 15 0
  buildType := "user"
  isArm := true
  isX86 := false
  isRiscV := false
  isKernel64Bit := true
  pageSize := 4096
  pathExists := fun _ => false
  retrieveRO := fun _ => .ok 10
  mapCreate := fun _ => .ok 11
  fdMapType := fun _ => 1
  fdKeySize := fun _ => 4
  fdValueSize := fun _ => 4
  fdMaxEntries := fun _ => 16
  fdMapFlags := fun _ => 0
  fdPin := fun _ _ => .ok ()
  rename2NoReplace := fun _ _ => .ok ()
  chmodP := fun _ _ => .ok ()
  chownP := fun _ _ _ => .ok ()
  retrieveProgram := fun _ => .ok 12
  progLoad := fun _ => .ok 13

/-- Like `wOk`, but the kernel reports `value_size = 8` for every map fd,
disagreeing with `sampleMapDef`'s declared 4. -/
def wBad : World := { wOk with fdValueSize := fun _ => 8 }

/-- Like `wOk`, but every `BPF_PROG_LOAD` fails with errno 13 (EACCES). -/
def wProgFail : World := { wOk with progLoad := fun _ => .error 13 }

/-- A shared variant of `sampleMapDef`. -/
def sharedMapDef : MapDef := { sampleMapDef with shared := true }

/-- A variant of `sampleMapDef` declaring a SELinux context. -/
def selinuxMapDef : MapDef := { sampleMapDef with selinux_context := .net_shared }

/-- A DEVMAP variant of `sampleMapDef`. -/
def devmapMapDef : MapDef := { sampleMapDef with type := BPF_MAP_TYPE_DEVMAP }

/-- A plain program definition that passes every gate. -/
def sampleProgDef : ProgDef where
  uid := 0
  gid := 2000
  min_kver := 0
  max_kver := 0xFFFFFFFF
  optional := false
  bpfloader_min_ver := 0
  bpfloader_max_ver := 0x10000
  ignore_on_eng := false
  ignore_on_user := false
  ignore_on_userdebug := false
  ignore_on_arm32 := false
  ignore_on_aarch64 := false
  ignore_on_x86_32 := false
  ignore_on_x86_64 := false
  ignore_on_riscv64 := false
  selinux_context := .unspecified
  pin_subdir := .unspecified

def optionalProgDef : ProgDef := { sampleProgDef with optional := true }

def selinuxProgDef : ProgDef := { sampleProgDef with selinux_context := .net_shared }

def sampleCS : CodeSection :=
  { name := "schedcls_bar", insns := [], rels := [], prog_def := some sampleProgDef }

def optionalCS : CodeSection :=
  { name := "schedcls_opt", insns := [], rels := [], prog_def := some optionalProgDef }

def selinuxCS : CodeSection :=
  { name := "schedcls_sel", insns := [], rels := [], prog_def := some selinuxProgDef }

theorem map_shape_mismatch_fails_object_witness :
    ∃ trace,
      loadProg wBad 46 "tethering/" "foo.o" 42 0x10000
        ([] ++ ("m", sampleMapDef) :: []) none [] [] =
        .ret (-(ENOTUNIQ : Int)) trace ∧
      ∀ a ∈ trace, a.isProgLoad = false :=
  map_shape_mismatch_fails_object wBad 46 "tethering/" "foo.o" [] "m"
    sampleMapDef [] 42 0x10000 none [] [] [] 11
    (by decide) (by decide) (by rfl) (by rfl) (by rfl) (by rfl) (by rfl)

theorem createMaps_one_slot_per_mapdef_witness :
    ([("m" : String), "n"].length = [sampleMapDef, skippedMapDef].length) ∧
    [some (11 : Nat), none].length = [sampleMapDef, skippedMapDef].length ∧
    ∀ i, (hi : i < [sampleMapDef, skippedMapDef].length) →
      ([some (11 : Nat), none][i]? = some none ↔
        mapSkipped wOk 46 [sampleMapDef, skippedMapDef][i] = true) := by
  refine ⟨by decide, ?_⟩
  exact createMaps_one_slot_per_mapdef wOk 46 "tethering/" "foo.o"
    ["m", "n"] [sampleMapDef, skippedMapDef] [some 11, none]
    (by decide) (by rfl)

/-- C5 (amended): pin paths are composed as `/sys/fs/bpf/` + (the
pin_subdir's subdirectory, or the location prefix when pin_subdir is
unspecified) + `map_`/`prog_` + objname + `_` + name, where objname is the
ELF filename with directories stripped, extension removed and any trailing
`@`-suffix removed; a shared map uses an empty objname (`map__<name>`); a
program's name has every `/` converted to `_` and a trailing `$`-suffix
removed — but a trailing `@`-suffix of a *program* name is kept (only
objname is `@`-stripped). -/
theorem pin_path_composition (pfx objName name progName : String)
    (md : MapDef) (pd : ProgDef) :
    (mapPinLoc pfx objName md name =
      "/sys/fs/bpf/" ++ lookupPinSubdir md.pin_subdir pfx ++ "map_" ++
        (if md.shared then "" else objName) ++ "_" ++ name) ∧
    (progPinLoc pfx objName pd progName =
      "/sys/fs/bpf/" ++ lookupPinSubdir pd.pin_subdir pfx ++ "prog_" ++
        objName ++ "_" ++ progName) ∧
    pathToObjName "/apex/com.android.tethering/etc/bpf/foo@2.o" = "foo" ∧
    mapPinLoc "tethering/" (pathToObjName "foo.o") sharedMapDef "m" =
      "/sys/fs/bpf/tethering/map__m" ∧
    mapPinLoc "tethering/" (pathToObjName "foo.o") sampleMapDef "m" =
      "/sys/fs/bpf/tethering/map_foo_m" ∧
    takeBeforeLast '$' (slashToUnderscore "schedcls/bar$5") = "schedcls_bar" ∧
    takeBeforeLast '$' (slashToUnderscore "schedcls/bar@2") = "schedcls_bar@2" :=
  ⟨rfl, rfl, by decide, by decide, by decide, by decide, by decide⟩

/-- C5 counterexample: a program section named `schedcls/bar@2` is pinned
at `.../prog_foo_schedcls_bar@2` — the trailing `@`-suffix of the program
name is *not* removed (contrary to the claim), only `/`→`_` conversion and
`$`-stripping are applied to program names. -/
theorem prog_pin_path_keeps_at_suffix :
    (processProg wOk 46 "tethering/" (pathToObjName "foo.o")
      { name := slashToUnderscore "schedcls/bar@2", insns := [], rels := [],
        prog_def := some sampleProgDef }).2 =
      [.progLoad "schedcls_bar@2",
       .pin 13 "/sys/fs/bpf/tethering/prog_foo_schedcls_bar@2",
       .chmod "/sys/fs/bpf/tethering/prog_foo_schedcls_bar@2" 0o440,
       .chown "/sys/fs/bpf/tethering/prog_foo_schedcls_bar@2" 0 2000] ∧
    ("/sys/fs/bpf/tethering/prog_foo_schedcls_bar@2" : String) ≠
      "/sys/fs/bpf/tethering/prog_foo_schedcls_bar" :=
  ⟨by decide, by decide⟩

/-- C6: for every newly created (non-reused) map or program: when its
definition specifies a (recognized, non-empty) SELinux context the loader
first pins the fd at the temporary path `tmp_map_`/`tmp_prog_` under the
SELinux context's subdirectory and then moves it to the final pin path via
`renameat2` with `RENAME_NOREPLACE`; when no SELinux context is specified
it pins directly at the final path. -/
theorem selinux_pin_rename_protocol (w : World) (ldver : Nat)
    (pfx objName nm : String) (md : MapDef) (cs : CodeSection)
    (pd : ProgDef) (fdm fdp : Nat)
    (hz : md.zero = 0) (hs : mapSkipped w ldver md = false)
    (hnrm : w.pathExists (mapPinLoc pfx objName md nm) = false)
    (hcr : w.mapCreate (mapCreateRequest w nm md (substMapType w md.type)
      (effectiveMaxEntries w (substMapType w md.type) md.max_entries)) = .ok fdm)
    (hmm : mapMatchesExpectations w fdm md (substMapType w md.type) = true)
    (hpd : cs.prog_def = some pd)
    (hps : progSkipped w ldver pd = false)
    (hnrp : w.pathExists
      (progPinLoc pfx objName pd (takeBeforeLast '$' cs.name)) = false)
    (hpl : w.progLoad cs.name = .ok fdp) :
    (specified md.selinux_context = true →
      w.fdPin fdm (mapTmpPinLoc objName md nm) = .ok () →
      ∃ rest, (processMap w ldver pfx objName nm md).2 =
        .mapCreate (mapCreateRequest w nm md (substMapType w md.type)
          (effectiveMaxEntries w (substMapType w md.type) md.max_entries)) ::
        .pin fdm (mapTmpPinLoc objName md nm) ::
        .rename (mapTmpPinLoc objName md nm) (mapPinLoc pfx objName md nm)
          true :: rest) ∧
    (specified md.selinux_context = false →
      ∃ rest, (processMap w ldver pfx objName nm md).2 =
        .mapCreate (mapCreateRequest w nm md (substMapType w md.type)
          (effectiveMaxEntries w (substMapType w md.type) md.max_entries)) ::
        .pin fdm (mapPinLoc pfx objName md nm) :: rest) ∧
    (specified pd.selinux_context = true →
      w.fdPin fdp (progTmpPinLoc objName pd (takeBeforeLast '$' cs.name)) = .ok () →
      ∃ rest, (processProg w ldver pfx objName cs).2 =
        .progLoad cs.name ::
        .pin fdp (progTmpPinLoc objName pd (takeBeforeLast '$' cs.name)) ::
        .rename (progTmpPinLoc objName pd (takeBeforeLast '$' cs.name))
          (progPinLoc pfx objName pd (takeBeforeLast '$' cs.name)) true :: rest) ∧
    (specified pd.selinux_context = false →
      ∃ rest, (processProg w ldver pfx objName cs).2 =
        .progLoad cs.name ::
        .pin fdp (progPinLoc pfx objName pd (takeBeforeLast '$' cs.name)) ::
        rest) := by
  refine ⟨fun hspec hpin => ?_, fun hspec => ?_, fun hspec hpin => ?_,
    fun hspec => ?_⟩
  · obtain ⟨rest, hrest⟩ := pinMapSteps_specified w objName md nm fdm
      (mapPinLoc pfx objName md nm) hspec hpin
    exact ⟨rest, by
      rw [processMap_created w ldver pfx objName nm md fdm hz hs hnrm hcr hmm,
        hrest]⟩
  · obtain ⟨rest, hrest⟩ := pinMapSteps_unspecified w objName md nm fdm
      (mapPinLoc pfx objName md nm) hspec
    exact ⟨rest, by
      rw [processMap_created w ldver pfx objName nm md fdm hz hs hnrm hcr hmm,
        hrest]⟩
  · obtain ⟨rest, hrest⟩ := pinProgSteps_specified w objName pd
      (takeBeforeLast '$' cs.name) fdp
      (progPinLoc pfx objName pd (takeBeforeLast '$' cs.name)) hspec hpin
    exact ⟨rest, by
      rw [processProg_created w ldver pfx objName cs pd fdp hpd hps hnrp hpl,
        hrest]⟩
  · obtain ⟨rest, hrest⟩ := pinProgSteps_unspecified w objName pd
      (takeBeforeLast '$' cs.name) fdp
      (progPinLoc pfx objName pd (takeBeforeLast '$' cs.name)) hspec
    exact ⟨rest, by
      rw [processProg_created w ldver pfx objName cs pd fdp hpd hps hnrp hpl,
        hrest]⟩

theorem selinux_pin_rename_protocol_witness :
    (specified (MapDef.selinux_context selinuxMapDef) = true →
      wOk.fdPin 11 (mapTmpPinLoc "foo" selinuxMapDef "m") = .ok () →
      ∃ rest, (processMap wOk 46 "tethering/" "foo" "m" selinuxMapDef).2 =
        .mapCreate (mapCreateRequest wOk "m" selinuxMapDef
          (substMapType wOk (MapDef.type selinuxMapDef))
          (effectiveMaxEntries wOk (substMapType wOk (MapDef.type selinuxMapDef))
            (MapDef.max_entries selinuxMapDef))) ::
        .pin 11 (mapTmpPinLoc "foo" selinuxMapDef "m") ::
        .rename (mapTmpPinLoc "foo" selinuxMapDef "m")
          (mapPinLoc "tethering/" "foo" selinuxMapDef "m") true :: rest) ∧
    (specified (MapDef.selinux_context selinuxMapDef) = false →
      ∃ rest, (processMap wOk 46 "tethering/" "foo" "m" selinuxMapDef).2 =
        .mapCreate (mapCreateRequest wOk "m" selinuxMapDef
          (substMapType wOk (MapDef.type selinuxMapDef))
          (effectiveMaxEntries wOk (substMapType wOk (MapDef.type selinuxMapDef))
            (MapDef.max_entries selinuxMapDef))) ::
        .pin 11 (mapPinLoc "tethering/" "foo" selinuxMapDef "m") :: rest) ∧
    (specified (ProgDef.selinux_context selinuxProgDef) = true →
      wOk.fdPin 13 (progTmpPinLoc "foo" selinuxProgDef
        (takeBeforeLast '$' (CodeSection.name selinuxCS))) = .ok () →
      ∃ rest, (processProg wOk 46 "tethering/" "foo" selinuxCS).2 =
        .progLoad (CodeSection.name selinuxCS) ::
        .pin 13 (progTmpPinLoc "foo" selinuxProgDef
          (takeBeforeLast '$' (CodeSection.name selinuxCS))) ::
        .rename (progTmpPinLoc "foo" selinuxProgDef
            (takeBeforeLast '$' (CodeSection.name selinuxCS)))
          (progPinLoc "tethering/" "foo" selinuxProgDef
            (takeBeforeLast '$' (CodeSection.name selinuxCS))) true :: rest) ∧
    (specified (ProgDef.selinux_context selinuxProgDef) = false →
      ∃ rest, (processProg wOk 46 "tethering/" "foo" selinuxCS).2 =
        .progLoad (CodeSection.name selinuxCS) ::
        .pin 13 (progPinLoc "tethering/" "foo" selinuxProgDef
          (takeBeforeLast '$' (CodeSection.name selinuxCS))) :: rest) :=
  selinux_pin_rename_protocol wOk 46 "tethering/" "foo" "m" selinuxMapDef
    selinuxCS selinuxProgDef 11 13
    (by rfl) (by rfl) (by rfl) (by rfl) (by rfl) (by rfl) (by rfl) (by rfl)
    (by rfl)

theorem lor_zero_eq (x : Nat) : Nat.lor x 0 = x := Nat.or_zero x

/-- C7 (amended): the `map_flags` actually passed to `BPF_MAP_CREATE` are
the declared flags plus `BPF_F_NO_PREALLOC` when the (post-substitution)
map type is LPM_TRIE — and nothing else; the `BPF_F_RDONLY_PROG` addition
for DEVMAP/DEVMAP_HASH only enters the *expected* flags that the shape
validation compares against (the kernel itself sets that flag on the
created map). -/
theorem map_create_flags (w : World) (name : String) (md : MapDef)
    (t maxE : Nat) :
    (mapCreateRequest w name md t maxE).map_flags =
      Nat.lor md.map_flags
        (if t == BPF_MAP_TYPE_LPM_TRIE then BPF_F_NO_PREALLOC else 0) ∧
    desiredMapFlags md t =
      Nat.lor
        (if t == BPF_MAP_TYPE_DEVMAP || t == BPF_MAP_TYPE_DEVMAP_HASH
          then Nat.lor md.map_flags BPF_F_RDONLY_PROG else md.map_flags)
        (if t == BPF_MAP_TYPE_LPM_TRIE then BPF_F_NO_PREALLOC else 0) := by
  refine ⟨rfl, ?_⟩
  cases hl : t == BPF_MAP_TYPE_LPM_TRIE <;>
    simp [desiredMapFlags, hl, lor_zero_eq]

/-- C7 counterexample: a DEVMAP map on a 4.14+ kernel (no type
substitution) is created with `map_flags = 0` — `BPF_F_RDONLY_PROG` (128)
is *not* added to the `BPF_MAP_CREATE` request, contrary to the claim. -/
theorem devmap_create_flags_counterexample :
    (processMap wOk 46 "tethering/" "foo" "m" devmapMapDef).2 =
      [FsAction.mapCreate (MapCreateReq.mk BPF_MAP_TYPE_DEVMAP 4 4 16 0 "m")] ∧
    MapCreateReq.map_flags (MapCreateReq.mk BPF_MAP_TYPE_DEVMAP 4 4 16 0 "m") = 0 ∧
    substMapType wOk (MapDef.type devmapMapDef) = BPF_MAP_TYPE_DEVMAP ∧
    Nat.lor (MapDef.map_flags devmapMapDef) BPF_F_RDONLY_PROG = 128 ∧
    (0 : Nat) ≠ 128 :=
  ⟨by rfl, by rfl, by rfl, by decide, by decide⟩

/-- C8 (amended): when `PROG_LOAD` fails for a program whose pin path did
not already exist: if the program is optional, `loadCodeSections`
continues with the next program, creating no fd slot and no pin (the only
trace entry is the failed `PROG_LOAD` attempt); otherwise it returns the
invalid fd value -1 (`return fd.get()`) — not the errno negated. -/
theorem prog_load_failure_handling (w : World) (ldver : Nat)
    (pfx objName : String) (cs : CodeSection) (pd : ProgDef) (e : Nat)
    (rest : List CodeSection)
    (hpd : cs.prog_def = some pd)
    (hps : progSkipped w ldver pd = false)
    (hnr : w.pathExists
      (progPinLoc pfx objName pd (takeBeforeLast '$' cs.name)) = false)
    (hpl : w.progLoad cs.name = .error e) :
    (pd.optional = true →
      loadCodeSectionsGo w ldver pfx objName (cs :: rest) =
        ((loadCodeSectionsGo w ldver pfx objName rest).1,
         .progLoad cs.name ::
           (loadCodeSectionsGo w ldver pfx objName rest).2)) ∧
    (pd.optional = false →
      loadCodeSectionsGo w ldver pfx objName (cs :: rest) =
        (.error (.code (-1)), [.progLoad cs.name])) := by
  have hp := processProg_load_failed w ldver pfx objName cs pd e hpd hps hnr hpl
  have ceq : loadCodeSectionsGo w ldver pfx objName (cs :: rest) =
      match processProg w ldver pfx objName cs with
      | (.error e2, acts) => (.error e2, acts)
      | (.ok slot, acts) =>
        match loadCodeSectionsGo w ldver pfx objName rest with
        | (.error e2, acts2) => (.error e2, acts ++ acts2)
        | (.ok fds, acts2) =>
          (.ok (match slot with | some fd => fd :: fds | none => fds),
           acts ++ acts2) := rfl
  constructor
  · intro hopt
    rw [hopt, if_pos rfl] at hp
    rw [ceq, hp]
    dsimp only
    rcases loadCodeSectionsGo w ldver pfx objName rest with ⟨r, acts⟩
    cases r <;> rfl
  · intro hopt
    rw [hopt, if_neg (by simp)] at hp
    rw [ceq, hp]

theorem prog_load_failure_handling_witness :
    (ProgDef.optional optionalProgDef = true →
      loadCodeSectionsGo wProgFail 46 "tethering/" "foo" (optionalCS :: []) =
        ((loadCodeSectionsGo wProgFail 46 "tethering/" "foo" []).1,
         .progLoad (CodeSection.name optionalCS) ::
           (loadCodeSectionsGo wProgFail 46 "tethering/" "foo" []).2)) ∧
    (ProgDef.optional sampleProgDef = false →
      loadCodeSectionsGo wProgFail 46 "tethering/" "foo" (sampleCS :: []) =
        (.error (.code (-1)), [.progLoad (CodeSection.name sampleCS)])) :=
  ⟨(prog_load_failure_handling wProgFail 46 "tethering/" "foo" optionalCS
      optionalProgDef 13 [] (by rfl) (by rfl) (by rfl) (by rfl)).1,
   (prog_load_failure_handling wProgFail 46 "tethering/" "foo" sampleCS
      sampleProgDef 13 [] (by rfl) (by rfl) (by rfl) (by rfl)).2⟩

/-- C8 counterexample: with `PROG_LOAD` failing with errno 13 (EACCES) for
a non-optional program, `loadCodeSections` returns -1 (the invalid fd
value from `return fd.get()`), not the errno negated (-13). -/
theorem prog_load_failure_returns_minus_one :
    (loadCodeSections wProgFail 46 "tethering/" "foo.o" [sampleCS]).1 =
      .error (.code (-1)) ∧
    (-1 : Int) ≠ -13 :=
  ⟨rfl, by decide⟩

/-- The failing input for C10: an object whose *last* section is a
non-empty program section (with a FUNC symbol, so the scan reaches the
rel-section look-ahead). -/
def lastProgSection : ElfSection :=
  { name := "schedcls/x", insns := [⟨0x18, 0, 0, 0, 0⟩], rels := [],
    funcSyms := ["x"] }

/-- C10: `readCodeSections` guards the look-ahead read of section header
`i+1` only by `cs_temp.data.size() > 0 && i < entries`, and `i < entries`
is always true inside the loop; on an object whose last section is a
non-empty program section the read of header `i+1 = entries` is out of
bounds.  The model evaluates to the distinguished `.oob` outcome at that
input (in the C++ this is an out-of-bounds `std::vector` access,
undefined behavior). -/
theorem readCodeSections_oob_at_last_section :
    readCodeSections [lastProgSection] [] [] = .error .oob ∧
    isProgSectionName (ElfSection.name lastProgSection) = true ∧
    0 < (ElfSection.insns lastProgSection).length ∧
    0 < [lastProgSection].length :=
  ⟨by decide, by decide, by decide, by decide⟩

end NetBpfLoad
